import Mathlib

/-!
Verification of the vogue_google_trends_app pipeline.

Shallow embedding of the three pipeline scripts:
  celebrities_vogue_articles.py  (scraper, date normalizer, dataset assembler)
  sentiment_analysis.py          (sentiment enricher)
  trends_vogue_app.py            (presentation layer)

Python strings are modelled as Lean String / List Char.  Python case
mappings (str.upper / str.lower / str.title / str.capitalize) are modelled
for ASCII letters plus the accented Spanish letters the pipeline's data
uses; other characters are left unchanged.  Python exceptions are modelled
with an Except monad; pandas NaT / NaN are modelled with Option.
-/

namespace VogueTrends

/-! ### Character-level models of Python string methods -/

/-- Lowercase-to-uppercase pairs: ASCII letters plus the accented Spanish
letters appearing in the pipeline's data (models Python str.upper on that
character set; all other characters are mapped to themselves). -/
def toUpperPairs : List (Char × Char) :=
  [('a','A'), ('b','B'), ('c','C'), ('d','D'), ('e','E'), ('f','F'), ('g','G'),
   ('h','H'), ('i','I'), ('j','J'), ('k','K'), ('l','L'), ('m','M'), ('n','N'),
   ('o','O'), ('p','P'), ('q','Q'), ('r','R'), ('s','S'), ('t','T'), ('u','U'),
   ('v','V'), ('w','W'), ('x','X'), ('y','Y'), ('z','Z'),
   ('á','Á'), ('é','É'), ('í','Í'), ('ó','Ó'), ('ú','Ú'), ('ñ','Ñ'), ('ü','Ü')]

/-- Uppercase-to-lowercase pairs (models Python str.lower on the same
character set). -/
def toLowerPairs : List (Char × Char) :=
  [('A','a'), ('B','b'), ('C','c'), ('D','d'), ('E','e'), ('F','f'), ('G','g'),
   ('H','h'), ('I','i'), ('J','j'), ('K','k'), ('L','l'), ('M','m'), ('N','n'),
   ('O','o'), ('P','p'), ('Q','q'), ('R','r'), ('S','s'), ('T','t'), ('U','u'),
   ('V','v'), ('W','w'), ('X','x'), ('Y','y'), ('Z','z'),
   ('Á','á'), ('É','é'), ('Í','í'), ('Ó','ó'), ('Ú','ú'), ('Ñ','ñ'), ('Ü','ü')]

/-- Association-list lookup used by the case-mapping tables. -/
def findPair : List (Char × Char) → Char → Option Char
  | [], _ => none
  | (a, b) :: t, c => if c = a then some b else findPair t c

/-- Model of Python str.upper on a single character. -/
def pyUpperChar (c : Char) : Char := (findPair toUpperPairs c).getD c

/-- Model of Python str.lower on a single character. -/
def pyLowerChar (c : Char) : Char := (findPair toLowerPairs c).getD c

/-- Model of Python str.upper. -/
def pyUpper (l : List Char) : List Char := l.map pyUpperChar

/-- Model of Python str.lower. -/
def pyLower (l : List Char) : List Char := l.map pyLowerChar

/-- A character is cased (for Python str.title word-boundary tracking) when
it is a letter of the modelled alphabet. -/
def casedChar (c : Char) : Bool :=
  (findPair toUpperPairs c).isSome || (findPair toLowerPairs c).isSome

/-- Whitespace characters stripped by Python str.strip() with no argument. -/
def isPyWs (c : Char) : Bool :=
  c == ' ' || c == '\t' || c == '\n' || c == '\r' || c == '\x0b' || c == '\x0c'

/-- Drop matching characters from the end of a list. -/
def dropEndWhile (p : Char → Bool) (l : List Char) : List Char :=
  (l.reverse.dropWhile p).reverse

/-- Model of Python str.strip(chars): drop matching characters from both
ends.  Python strips the front and the back independently, which this
mirrors. -/
def pyStripWith (p : Char → Bool) (l : List Char) : List Char :=
  dropEndWhile p (l.dropWhile p)

/-- Model of Python str.strip() (whitespace). -/
def stripWs (l : List Char) : List Char := pyStripWith isPyWs l

/-- Model of Python str.strip(q) for a single quote character q. -/
def stripQuoteChar (q : Char) (l : List Char) : List Char :=
  pyStripWith (fun c => c == q) l

/-- Worker for Python str.title: the Boolean state records whether the
previous character was cased (CPython's previous_is_cased). -/
def titleGo : Bool → List Char → List Char
  | _, [] => []
  | prev, c :: cs =>
    (if prev then pyLowerChar c else pyUpperChar c) :: titleGo (casedChar c) cs

/-- Model of Python str.title(). -/
def pyTitle (l : List Char) : List Char := titleGo false l

/-- Model of Python str.capitalize(): first character title-cased (equal to
upper-cased on the modelled alphabet), the rest lower-cased. -/
def pyCapitalize (l : List Char) : List Char :=
  match l with
  | [] => []
  | c :: cs => pyUpperChar c :: pyLower cs

/-- Model of the Python substring test (needle in hay). -/
def hasSubstr (needle : List Char) : List Char → Bool
  | [] => needle.isEmpty
  | c :: rest => needle.isPrefixOf (c :: rest) || hasSubstr needle rest

/-! ### trends_vogue_app.py: utility constants and cleaning functions -/

/-- Source: BANNED_ARTISTS of trends_vogue_app.py (a one-element set). -/
def BANNED_ARTISTS : List String := ["estilo de vida"]

/-- Source: TAG_RULES of trends_vogue_app.py; a Python dict iterated in
insertion order, modelled as an ordered association list. -/
def TAG_RULES : List (String × String) :=
  [("MET GALA", "Met Gala"), ("METGALA", "Met Gala"),
   ("PAREJA", "Parejas"), ("PAREJAS", "Parejas")]

/-- Source: clean_artist_name of trends_vogue_app.py:
name.strip().strip(apostrophe).strip(double quote).strip(), then
cleaned.title() if cleaned else the empty string. -/
def clean_artist_name (name : String) : String :=
  let cleaned := stripWs (stripQuoteChar '"' (stripQuoteChar '\'' (stripWs name.toList)))
  if cleaned.isEmpty then "" else (pyTitle cleaned).asString

/-- First TAG_RULES value whose key occurs in the tag, in insertion order
(models the for-loop over TAG_RULES.items() with an early return). -/
def applyTagRules (t : List Char) : Option String :=
  TAG_RULES.findSome? (fun p => if hasSubstr p.1.toList t then some p.2 else none)

/-- Source: clean_tags of trends_vogue_app.py: str(tag).upper().strip() is
scanned for the rule keys; otherwise the uppercased-stripped tag is
capitalized.  The str(...) coercion is modelled by taking a String input. -/
def clean_tags (tag : String) : String :=
  let t := stripWs (pyUpper tag.toList)
  match applyTagRules t with
  | some v => v
  | none => (pyCapitalize t).asString

/-! ### Python exceptions and value model -/

/-- The Python exception kinds the embedded code can raise. -/
inductive PyErr where
  | valueError
  | attributeError
  | keyError
deriving DecidableEq

/-- Python values reaching the tolerant list parser: None, float NaN,
strings, lists of strings, or anything else (numbers etc.).  List elements
are restricted to strings, which is the only element shape the pipeline
produces. -/
inductive PyVal where
  | pyNone
  | pyNaN
  | pyStr (s : String)
  | pyListStr (xs : List String)
  | pyOther
deriving DecidableEq

/-- Model of pandas pd.isna applied in Boolean context (if pd.isna(value)).
On scalars it yields a Boolean.  On a list it yields a numpy Boolean array;
taking the truth value of that array succeeds only when the array has
exactly one element (a string element is not na), and raises ValueError
otherwise (ambiguous truth value). -/
def pdIsNa : PyVal → Except PyErr Bool
  | .pyNone => .ok true
  | .pyNaN => .ok true
  | .pyStr _ => .ok false
  | .pyListStr xs => if xs.length = 1 then .ok false else .error .valueError
  | .pyOther => .ok false

/-! ### celebrities_vogue_articles.py: date normalizer -/

/-- Source: the meses month-name table of celebrities_vogue_articles.py. -/
def meses : List (String × String) :=
  [("enero", "01"), ("febrero", "02"), ("marzo", "03"), ("abril", "04"),
   ("mayo", "05"), ("junio", "06"), ("julio", "07"), ("agosto", "08"),
   ("septiembre", "09"), ("octubre", "10"), ("noviembre", "11"),
   ("diciembre", "12")]

/-- Characters matched by the month group of the date regex, the character
class of lowercase a-z plus the accented Spanish letters. -/
def isMonthChar (c : Char) : Bool :=
  c.isLower || c == 'á' || c == 'é' || c == 'í' || c == 'ó' || c == 'ú' || c == 'ñ'

/-- Numeric value of a digit string (the regex groups only capture ASCII
digits; Python re's digit class also accepts other Unicode digits, which
the pipeline's data never contains and is not modelled). -/
def natOfDigits (l : List Char) : Nat :=
  l.foldl (fun n c => 10 * n + (c.toNat - 48)) 0

/-- The literal separator of the date pattern. -/
def deSep : List Char := [' ', 'd', 'e', ' ']

/-- Model of re.match against the day / month-name / year pattern: one or
two digits, the separator, one or more month-class characters, the
separator, four digits.  re.match anchors at the start only, so trailing
characters are allowed.  Returns the three captured groups.  The greedy
day and month groups are modelled by maximal runs: shrinking a run can
never help, because the character after each group (a space or a digit) is
outside that group's class. -/
def matchFecha (l : List Char) : Option (List Char × List Char × List Char) :=
  let ds := l.takeWhile Char.isDigit
  if ds.length = 1 ∨ ds.length = 2 then
    let r1 := l.drop ds.length
    if deSep.isPrefixOf r1 then
      let r2 := r1.drop 4
      let ms := r2.takeWhile isMonthChar
      if ms.isEmpty then none
      else
        let r3 := r2.drop ms.length
        if deSep.isPrefixOf r3 then
          let ys := (r3.drop 4).take 4
          if ys.length = 4 ∧ ys.all Char.isDigit then some (ds, ms, ys) else none
        else none
    else none
  else none

/-- A calendar date as produced by the date normalizer. -/
structure PdDate where
  year : Nat
  month : Nat
  day : Nat
deriving DecidableEq

/-- Gregorian leap-year test. -/
def leapYear (y : Nat) : Bool := (y % 4 = 0 && y % 100 != 0) || y % 400 = 0

/-- Days in a month of the Gregorian calendar. -/
def daysInMonth (y m : Nat) : Nat :=
  if m = 2 then (if leapYear y then 29 else 28)
  else if m = 4 ∨ m = 6 ∨ m = 9 ∨ m = 11 then 30
  else 31

/-- The triple (y, m, d) names a calendar date that a nanosecond-precision
pandas Timestamp can represent: a real Gregorian date between 1677-09-22
and 2262-04-11 (pd.to_datetime raises outside these bounds). -/
def pdValidYMD (y m d : Nat) : Bool :=
  decide (1 ≤ m) && decide (m ≤ 12) && decide (1 ≤ d) &&
  decide (d ≤ daysInMonth y m) &&
  (decide (1678 ≤ y) || (decide (y = 1677) && (decide (10 ≤ m) || (decide (m = 9) && decide (22 ≤ d))))) &&
  (decide (y ≤ 2261) || (decide (y = 2262) && (decide (m ≤ 3) || (decide (m = 4) && decide (d ≤ 11)))))

/-- Model of pd.to_datetime on the formatted year-month-day string: yields
the date, or raises for a string naming no representable date. -/
def toDatetimeYMD (y m d : Nat) : Except PyErr PdDate :=
  if pdValidYMD y m d then .ok ⟨y, m, d⟩ else .error .valueError

/-- Input to the date normalizer: a string, the pandas null date NaT, or a
non-string scalar. -/
inductive PdInput where
  | pdStr (s : String)
  | pdNaT
  | pdOther
deriving DecidableEq

/-- Source: parse_fecha_es of celebrities_vogue_articles.py.  A string
input is lowered and stripped, matched against the date pattern, and its
month group looked up in meses; on success pd.to_datetime builds the date
(raising on unrepresentable dates), otherwise pd.NaT (modelled none) is
returned.  Non-string input, including NaT itself, yields NaT. -/
def parse_fecha_es (fecha : PdInput) : Except PyErr (Option PdDate) :=
  match fecha with
  | .pdStr s =>
    let norm := stripWs (pyLower s.toList)
    match matchFecha norm with
    | some (ds, ms, ys) =>
      match meses.lookup ms.asString with
      | some mm => (toDatetimeYMD (natOfDigits ys) (natOfDigits mm.toList) (natOfDigits ds)).map some
      | none => .ok none
    | none => .ok none
  | _ => .ok none

/-- Decidable equality for the Except values the embedded code returns. -/
instance {ε α : Type} [DecidableEq ε] [DecidableEq α] : DecidableEq (Except ε α)
  | .ok a, .ok b => if h : a = b then .isTrue (by rw [h]) else .isFalse (by simp [h])
  | .error a, .error b => if h : a = b then .isTrue (by rw [h]) else .isFalse (by simp [h])
  | .ok _, .error _ => .isFalse (by simp)
  | .error _, .ok _ => .isFalse (by simp)

/-! ### trends_vogue_app.py: tolerant list-field parser -/

/-- Keep condition of the list comprehensions in parse_artists: the
canonical name, lowered, is not denylisted, and the canonical name is
truthy (non-empty). -/
def listElemKeep (a : String) : Bool :=
  !(BANNED_ARTISTS.contains ((pyLower (clean_artist_name a).toList).asString)) &&
  clean_artist_name a != ""

/-- Shared body of the two list comprehensions of parse_artists: filter by
listElemKeep, then canonicalize each kept element. -/
def cleanArtistList (xs : List String) : List String :=
  (xs.filter listElemKeep).map clean_artist_name

/-- Model of Python str.split on a comma: always at least one piece, empty
pieces preserved. -/
def splitCommaGo : List Char → List Char → List (List Char)
  | [], acc => [acc.reverse]
  | c :: cs, acc =>
    if c = ',' then acc.reverse :: splitCommaGo cs [] else splitCommaGo cs (c :: acc)

/-- Model of Python value.split(","). -/
def pySplitComma (l : List Char) : List (List Char) := splitCommaGo l []

/-- Model of value.replace(open bracket, empty).replace(close bracket,
empty): remove every square bracket. -/
def removeBrackets (l : List Char) : List Char :=
  l.filter (fun c => c != '[' && c != ']')

/-- Source: parse_artists of trends_vogue_app.py.  The pd.isna truth test
can itself raise on list input (see pdIsNa).  For a string, brackets are
removed and the string stripped; the ast.literal_eval branch can never
return a list, because a Python list literal needs the just-removed
brackets, and every exception inside that try block is swallowed by the
bare except, so the string path always ends in the comma-split
comprehension.  Anything neither na, list, nor string yields the empty
list. -/
def parse_artists (value : PyVal) : Except PyErr (List String) := do
  let na ← pdIsNa value
  if na then
    pure []
  else
    match value with
    | .pyListStr xs => pure (cleanArtistList xs)
    | .pyStr s =>
      let clean_str := stripWs (removeBrackets s.toList)
      pure (cleanArtistList ((pySplitComma clean_str).map List.asString))
    | _ => pure []

/-! ### sentiment_analysis.py: sentiment enricher -/

/-- An input record of the enricher (only the body field is read). -/
structure Article where
  cuerpo_articulo : String
deriving DecidableEq

/-- The JSON body of a sentiment-service response; the success branch
reads its sentiment field. -/
structure RespJson where
  sentiment : Option String
deriving DecidableEq

/-- A sentiment-service HTTP response: status code, and the parsed JSON
body (none models a body that is not JSON, so that r.json() raises
ValueError). -/
structure SvcResp where
  status_code : Nat
  json : Option RespJson
deriving DecidableEq

/-- Request text preparation: replace newlines by spaces, truncate to the
1000-character budget. -/
def requestText (body : String) : String :=
  let text := body.toList.map (fun c => if c = '\n' then ' ' else c)
  (if text.length > 1000 then text.take 1000 else text).asString

/-- The running per-label tally of the enricher (the sentiments dict). -/
def tallyScore (counts : List (String × Nat)) (score : String) : List (String × Nat) :=
  if counts.any (fun p => p.1 == score) then
    counts.map (fun p => if p.1 == score then (p.1, p.2 + 1) else p)
  else counts ++ [(score, 1)]

/-- Source: the per-article loop of download_sentiment of
sentiment_analysis.py, with the external HTTP call abstracted as a
function svc from request text to response.  On a non-JSON body, r.json()
raises ValueError, which the surrounding except ValueError catches and the
function returns None (modelled .ok none).  On a 200 response the
sentiment field is read (a missing field raises an uncaught KeyError) and
the response appended.  On a non-200 response the error print reads
response.status_code on the parsed JSON dict, which raises an uncaught
AttributeError before the response can be appended. -/
def downloadGo (svc : String → SvcResp) :
    List Article → List RespJson → List (String × Nat) →
    Except PyErr (Option (List RespJson × List (String × Nat)))
  | [], resps, counts => .ok (some (resps, counts))
  | a :: rest, resps, counts =>
    let r := svc (requestText a.cuerpo_articulo)
    match r.json with
    | none => .ok none
    | some response =>
      if r.status_code = 200 then
        match response.sentiment with
        | some score => downloadGo svc rest (resps ++ [response]) (tallyScore counts score)
        | none => .error .keyError
      else .error .attributeError

/-- Source: download_sentiment of sentiment_analysis.py. -/
def download_sentiment (svc : String → SvcResp) (data : List Article) :
    Except PyErr (Option (List RespJson × List (String × Nat))) :=
  downloadGo svc data [] []

/-! ### celebrities_vogue_articles.py: collector loop and assembler -/

/-- Model of Python str.split() (split on whitespace runs, no empty
pieces), with an accumulator for the word being read. -/
def splitWsGo : List Char → List Char → List (List Char)
  | [], acc => if acc.isEmpty then [] else [acc.reverse]
  | c :: cs, acc =>
    if isPyWs c then
      (if acc.isEmpty then splitWsGo cs [] else acc.reverse :: splitWsGo cs [])
    else splitWsGo cs (c :: acc)

/-- Join word lists with single spaces. -/
def joinSpace (ls : List (List Char)) : List Char := (ls.intersperse [' ']).flatten

/-- Source: process_string of celebrities_vogue_articles.py: an empty
(falsy) text becomes the sentinel; otherwise whitespace is normalized by
splitting on whitespace runs and joining with single spaces (the
intermediate strip and newline replacement are subsumed by split()). -/
def process_string (text : String) : String :=
  if text = "" then "N/A" else (joinSpace (splitWsGo text.toList [])).asString

/-- A summary element of the listing page for which the three field
extractions of the collector's try block succeeded, together with the
outcome of extract_article_details for its link and the optional tag and
author extractions (none models a failing find_element). -/
structure SummaryElem where
  tituloRaw : String
  fechaRaw : String
  link : String
  cuerpo_articulo : String
  artistas_en_articulo : List String
  tagRaw : Option String
  autorRaw : Option String
deriving DecidableEq

/-- A collected article record (the data dict of the collector loop). -/
structure ArticleRecord where
  titulo : String
  fecha : String
  link : String
  cuerpo_articulo : String
  artistas_en_articulo : List String
  tag : String
  autor : String
deriving DecidableEq

/-- The dedup key of the run: processed title and processed raw date
text. -/
def elemKey (e : SummaryElem) : String × String :=
  (process_string e.tituloRaw, process_string e.fechaRaw)

/-- Assembly of the record dict, with the sentinel defaults for a missing
tag or author. -/
def mkRecord (e : SummaryElem) : ArticleRecord :=
  { titulo := process_string e.tituloRaw
    fecha := process_string e.fechaRaw
    link := e.link
    cuerpo_articulo := e.cuerpo_articulo
    artistas_en_articulo := e.artistas_en_articulo
    tag := (e.tagRaw.map process_string).getD "N/A"
    autor := (e.autorRaw.map process_string).getD "N/A" }

/-- Source: the per-article loop of scrape_vogue_celebrities.  A none
element is one whose try block failed (continue).  A seen key is skipped;
otherwise the record is appended and the key added to processed_keys. -/
def scrapeArticles :
    List (Option SummaryElem) → List (String × String) →
    List ArticleRecord × List (String × String)
  | [], seen => ([], seen)
  | none :: rest, seen => scrapeArticles rest seen
  | some e :: rest, seen =>
    if elemKey e ∈ seen then scrapeArticles rest seen
    else
      let out := scrapeArticles rest (elemKey e :: seen)
      (mkRecord e :: out.1, out.2)

/-- Source: the page loop of scrape_vogue_celebrities.  A none page is one
where waiting for the article selector timed out, which breaks out of the
loop; processed_keys persists across pages.  The browser driving itself is
external and abstracted into the page contents. -/
def scrapePages :
    List (Option (List (Option SummaryElem))) → List (String × String) →
    List ArticleRecord
  | [], _ => []
  | none :: _, _ => []
  | some arts :: rest, seen =>
    let out := scrapeArticles arts seen
    out.1 ++ scrapePages rest out.2

/-- Source: scrape_vogue_celebrities of celebrities_vogue_articles.py,
abstracted over the pages the browser yields. -/
def scrape_vogue_celebrities (pages : List (Option (List (Option SummaryElem)))) :
    List ArticleRecord :=
  scrapePages pages []

/-- An exception-propagating elementwise map, the model of a pandas
column apply whose function can raise. -/
def mapE (f : α → Except PyErr β) : List α → Except PyErr (List β)
  | [] => .ok []
  | a :: l =>
    match f a with
    | .error e => .error e
    | .ok b => (mapE f l).map (fun bs => b :: bs)

/-- A raw collected row as prepare_dataframe receives it: the body can be
NaN (none), the link can be NaN (none), the artist column holds an
arbitrary value to be coerced. -/
structure RawArticle where
  titulo : String
  fecha : String
  link : Option String
  cuerpo_articulo : Option String
  artistas_en_articulo : PyVal
  tag : String
  autor : String
deriving DecidableEq

/-- A row of the assembled dataset. -/
structure PreparedArticle where
  titulo : String
  fecha : Option PdDate
  link : String
  cuerpo_articulo : String
  artistas_en_articulo : List String
  tag : String
  autor : String
deriving DecidableEq

/-- The row filter of prepare_dataframe: body present and not the
sentinel. -/
def keepBody (r : RawArticle) : Bool :=
  match r.cuerpo_articulo with
  | some s => s != "N/A"
  | none => false

/-- The artist-column coercion of prepare_dataframe: keep a list, replace
anything else by the empty list. -/
def listOrEmpty (v : PyVal) : List String :=
  match v with
  | .pyListStr xs => xs
  | _ => []

/-- Source: prepare_dataframe of celebrities_vogue_articles.py: parse the
date column (exceptions propagate), filter out sentinel or absent bodies,
coerce the artist column to a list and a missing link to the empty
string. -/
def prepare_dataframe (rows : List RawArticle) : Except PyErr (List PreparedArticle) :=
  (mapE (fun r => (parse_fecha_es (.pdStr r.fecha)).map (fun d => (r, d))) rows).map
    (fun withF =>
      (withF.filter (fun rd => keepBody rd.1)).map (fun rd =>
        { titulo := rd.1.titulo
          fecha := rd.2
          link := rd.1.link.getD ""
          cuerpo_articulo := rd.1.cuerpo_articulo.getD ""
          artistas_en_articulo := listOrEmpty rd.1.artistas_en_articulo
          tag := rd.1.tag
          autor := rd.1.autor }))

/-! ### trends_vogue_app.py: data loading and the positional join -/

/-- A row of the tabular dataset file as read by load_data. -/
structure CsvRow where
  titulo : String
  fecha : String
  link : String
  cuerpo_articulo : String
  artistas_en_articulo : PyVal
  tag : String
  autor : String
deriving DecidableEq

/-- An entry of the sentiment-response file: the sentiment label and the
score (renamed confidence on load); either can be absent, for example in
an error payload. -/
structure SentEntry where
  sentiment : Option String
  score : Option ℚ
deriving DecidableEq

/-- A dataset row after the column transformations of load_data. -/
structure CleanRow where
  titulo : String
  fecha : Option PdDate
  link : String
  cuerpo_articulo : String
  artistas_en_articulo : List String
  tag : String
deriving DecidableEq

/-- A joined row: the article part is none past the end of the shorter
side of the outer positional concat; sentiment and confidence carry their
fillna defaults. -/
structure AppRow where
  art : Option CleanRow
  sentiment : String
  confidence : ℚ
deriving DecidableEq

/-- Model of pd.to_datetime with errors coerce on the date strings the
pipeline's CSV holds (the ISO year-month-day form pandas serializes):
unparseable text coerces to NaT. -/
def parseIsoDate (s : String) : Option PdDate :=
  match s.toList with
  | [y1, y2, y3, y4, '-', m1, m2, '-', d1, d2] =>
    if [y1, y2, y3, y4, m1, m2, d1, d2].all Char.isDigit then
      let y := natOfDigits [y1, y2, y3, y4]
      let m := natOfDigits [m1, m2]
      let d := natOfDigits [d1, d2]
      if pdValidYMD y m d then some ⟨y, m, d⟩ else none
    else none
  | _ => none

/-- Source: load_data of trends_vogue_app.py: coerce the date column,
parse the artist column (exceptions propagate), canonicalize tags, then
concat the sentiment frame positionally (outer join on the row index, so
the result has max-length rows and either side is NaN-padded) and fill
missing sentiment with unknown and missing confidence with 0.0. -/
def load_data (rows : List CsvRow) (sent : List SentEntry) : Except PyErr (List AppRow) :=
  (mapE (fun r =>
      (parse_artists r.artistas_en_articulo).map (fun arts =>
        { titulo := r.titulo
          fecha := parseIsoDate r.fecha
          link := r.link
          cuerpo_articulo := r.cuerpo_articulo
          artistas_en_articulo := arts
          tag := clean_tags r.tag : CleanRow })) rows).map
    (fun cleaned =>
      (List.range (max cleaned.length sent.length)).map (fun i =>
        { art := cleaned.get? i
          sentiment := ((sent.get? i).bind SentEntry.sentiment).getD "unknown"
          confidence := ((sent.get? i).bind SentEntry.score).getD 0 }))

/-! ### trends_vogue_app.py: search-interest fetch -/

/-- Source: the MOCK_TRENDS flag of trends_vogue_app.py. -/
def MOCK_TRENDS : Bool := false

/-- Source: the MIN_TRENDS_DAYS constant of trends_vogue_app.py. -/
def MIN_TRENDS_DAYS : Int := 7

/-- A date-indexed frame of interest series, one column per keyword. -/
abbrev TrendsDF := List (String × List Nat)

/-- Model of dropping the isPartial column with errors ignore. -/
def dropPartialColumn (df : TrendsDF) : TrendsDF :=
  df.filter (fun p => p.1 != "isPartial")

/-- Source: get_trends of trends_vogue_app.py, abstracted over the
upstream pytrends call chain (TrendReq, build_payload,
interest_over_time), modelled as a function fetch from the queried keyword
list to a frame or a raised exception.  Dates are modelled as day numbers
so that the span is fin minus start.  The mock branch, dead under
MOCK_TRENDS false, builds random demo data and is modelled by the empty
frame. -/
def get_trends (fetch : List String → Except String TrendsDF)
    (keywords : List String) (start fin : Int) : TrendsDF :=
  if keywords.isEmpty || fin - start < MIN_TRENDS_DAYS then []
  else if MOCK_TRENDS then []
  else
    match fetch (keywords.take 5) with
    | .ok df => dropPartialColumn df
    | .error _ => []

/-! ### Auxiliary definitions used by theorem statements -/

/-- The dedup key of an emitted record. -/
def recordKey (r : ArticleRecord) : String × String := (r.titulo, r.fecha)

/-- The canonical form neither starts nor ends with a quote character
(apostrophe or double quote). -/
def noBoundaryQuote (s : String) : Bool :=
  (match s.toList.head? with
   | some c => c != '\'' && c != '"'
   | none => true) &&
  (match s.toList.getLast? with
   | some c => c != '\'' && c != '"'
   | none => true)

/-! ### Lemmas: character case mappings -/

theorem findPair_mem {t : List (Char × Char)} {c d : Char}
    (h : findPair t c = some d) : (c, d) ∈ t := by
  induction t with
  | nil => simp [findPair] at h
  | cons p rest ih =>
    obtain ⟨a, b⟩ := p
    by_cases hc : c = a
    · subst hc
      simp [findPair] at h
      simp [h]
    · simp [findPair, hc] at h
      exact List.mem_cons_of_mem _ (ih h)

theorem upperPairs_snd_no_upper :
    ∀ p ∈ toUpperPairs, findPair toUpperPairs p.2 = none := by decide

theorem upperPairs_snd_lower :
    ∀ p ∈ toUpperPairs, findPair toLowerPairs p.2 = some p.1 := by decide

theorem lowerPairs_snd_no_lower :
    ∀ p ∈ toLowerPairs, findPair toLowerPairs p.2 = none := by decide

theorem lowerPairs_snd_upper :
    ∀ p ∈ toLowerPairs, findPair toUpperPairs p.2 = some p.1 := by decide

theorem upperPairs_no_ws :
    ∀ p ∈ toUpperPairs, isPyWs p.1 = false ∧ isPyWs p.2 = false := by decide

theorem lowerPairs_no_ws :
    ∀ p ∈ toLowerPairs, isPyWs p.1 = false ∧ isPyWs p.2 = false := by decide

theorem pyUpperChar_idem (c : Char) : pyUpperChar (pyUpperChar c) = pyUpperChar c := by
  unfold pyUpperChar
  cases h : findPair toUpperPairs c with
  | none => simp [h]
  | some d =>
    have hmem := findPair_mem h
    have := upperPairs_snd_no_upper (c, d) hmem
    simp at this ⊢
    simp [this]

theorem pyLowerChar_idem (c : Char) : pyLowerChar (pyLowerChar c) = pyLowerChar c := by
  unfold pyLowerChar
  cases h : findPair toLowerPairs c with
  | none => simp [h]
  | some d =>
    have hmem := findPair_mem h
    have := lowerPairs_snd_no_lower (c, d) hmem
    simp at this ⊢
    simp [this]

theorem pyUpper_lower_upper (c : Char) :
    pyUpperChar (pyLowerChar (pyUpperChar c)) = pyUpperChar c := by
  cases h : findPair toUpperPairs c with
  | none =>
    have hc : pyUpperChar c = c := by simp [pyUpperChar, h]
    rw [hc]
    cases h2 : findPair toLowerPairs c with
    | none =>
      have : pyLowerChar c = c := by simp [pyLowerChar, h2]
      rw [this, hc]
    | some e =>
      have hl : pyLowerChar c = e := by simp [pyLowerChar, h2]
      have := lowerPairs_snd_upper (c, e) (findPair_mem h2)
      simp at this
      rw [hl]
      simp [pyUpperChar, this, hc]
  | some d =>
    have hu : pyUpperChar c = d := by simp [pyUpperChar, h]
    have := upperPairs_snd_lower (c, d) (findPair_mem h)
    simp at this
    have hl : pyLowerChar d = c := by simp [pyLowerChar, this]
    rw [hu, hl, hu]

theorem casedChar_upper (c : Char) : casedChar (pyUpperChar c) = casedChar c := by
  cases h : findPair toUpperPairs c with
  | none => simp [pyUpperChar, h]
  | some d =>
    have hu : pyUpperChar c = d := by simp [pyUpperChar, h]
    have := upperPairs_snd_lower (c, d) (findPair_mem h)
    simp at this
    rw [hu]
    simp [casedChar, h, this]

theorem casedChar_lower (c : Char) : casedChar (pyLowerChar c) = casedChar c := by
  cases h : findPair toLowerPairs c with
  | none => simp [pyLowerChar, h]
  | some d =>
    have hl : pyLowerChar c = d := by simp [pyLowerChar, h]
    have := lowerPairs_snd_upper (c, d) (findPair_mem h)
    simp at this
    rw [hl]
    simp [casedChar, h, this]

theorem isPyWs_upper (c : Char) : isPyWs (pyUpperChar c) = isPyWs c := by
  cases h : findPair toUpperPairs c with
  | none => simp [pyUpperChar, h]
  | some d =>
    have hu : pyUpperChar c = d := by simp [pyUpperChar, h]
    have := upperPairs_no_ws (c, d) (findPair_mem h)
    rw [hu, this.2, this.1]

theorem isPyWs_lower (c : Char) : isPyWs (pyLowerChar c) = isPyWs c := by
  cases h : findPair toLowerPairs c with
  | none => simp [pyLowerChar, h]
  | some d =>
    have hl : pyLowerChar c = d := by simp [pyLowerChar, h]
    have := lowerPairs_no_ws (c, d) (findPair_mem h)
    rw [hl, this.2, this.1]

/-! ### Lemmas: stripping and title-casing -/

theorem dropWhile_head_false {p : Char → Bool} {c : Char} {rest : List Char} :
    ∀ {l : List Char}, l.dropWhile p = c :: rest → p c = false := by
  intro l
  induction l with
  | nil => intro h; simp [List.dropWhile] at h
  | cons a t ih =>
    intro h
    by_cases ha : p a
    · rw [List.dropWhile_cons_of_pos ha] at h
      exact ih h
    · rw [List.dropWhile_cons_of_neg ha] at h
      cases h
      exact Bool.eq_false_iff.mpr ha

theorem dropWhile_of_head_false {p : Char → Bool} {l : List Char} {c : Char}
    (hh : l.head? = some c) (hc : p c = false) : l.dropWhile p = l := by
  cases l with
  | nil => simp at hh
  | cons a t =>
    simp at hh
    subst hh
    exact List.dropWhile_cons_of_neg (by simp [hc])

theorem dropWhile_idem {p : Char → Bool} (l : List Char) :
    (l.dropWhile p).dropWhile p = l.dropWhile p := by
  cases h : l.dropWhile p with
  | nil => simp
  | cons c rest =>
    have := dropWhile_head_false h
    exact dropWhile_of_head_false (by simp) this

theorem dropWhile_suffix_decomp {p : Char → Bool} (l : List Char) :
    ∃ u, u ++ l.dropWhile p = l := by
  induction l with
  | nil => exact ⟨[], rfl⟩
  | cons a t ih =>
    by_cases ha : p a
    · obtain ⟨u, hu⟩ := ih
      exact ⟨a :: u, by simp [List.dropWhile_cons_of_pos ha, hu]⟩
    · exact ⟨[], by simp [List.dropWhile_cons_of_neg ha]⟩

theorem stripWith_prefix_decomp (p : Char → Bool) (l : List Char) :
    ∃ v, pyStripWith p l ++ v = l.dropWhile p := by
  obtain ⟨u, hu⟩ := dropWhile_suffix_decomp (p := p) ((l.dropWhile p).reverse)
  refine ⟨u.reverse, ?_⟩
  unfold pyStripWith dropEndWhile
  have h2 := congrArg List.reverse hu
  simpa [List.reverse_append] using h2

theorem stripWith_head_false {p : Char → Bool} {l : List Char} {c : Char}
    (h : (pyStripWith p l).head? = some c) : p c = false := by
  obtain ⟨v, hv⟩ := stripWith_prefix_decomp p l
  cases hs : pyStripWith p l with
  | nil => rw [hs] at h; simp at h
  | cons a rest =>
    rw [hs] at h hv
    have hac : a = c := by simpa using h
    subst hac
    have hdw : l.dropWhile p = a :: (rest ++ v) := by
      rw [← hv]
      simp
    exact dropWhile_head_false hdw

theorem stripWith_getLast_false {p : Char → Bool} {l : List Char} {c : Char}
    (h : (pyStripWith p l).getLast? = some c) : p c = false := by
  unfold pyStripWith dropEndWhile at h
  rw [List.getLast?_reverse] at h
  cases hd : ((l.dropWhile p).reverse).dropWhile p with
  | nil => rw [hd] at h; simp at h
  | cons a rest =>
    rw [hd] at h
    simp at h
    subst h
    exact dropWhile_head_false hd

theorem stripWith_fix {p : Char → Bool} {l : List Char}
    (hh : ∀ c, l.head? = some c → p c = false)
    (hl : ∀ c, l.getLast? = some c → p c = false) :
    pyStripWith p l = l := by
  have h1 : l.dropWhile p = l := by
    cases l with
    | nil => rfl
    | cons a t => exact dropWhile_of_head_false (by simp) (hh a (by simp))
  have h2 : l.reverse.dropWhile p = l.reverse := by
    cases hr : l.reverse with
    | nil => rfl
    | cons b u =>
      have hb : l.getLast? = some b := by
        rw [← List.head?_reverse, hr]
        rfl
      exact dropWhile_of_head_false (by simp) (hl b hb)
  unfold pyStripWith dropEndWhile
  rw [h1, h2, List.reverse_reverse]

theorem stripWith_idem (p : Char → Bool) (l : List Char) :
    pyStripWith p (pyStripWith p l) = pyStripWith p l :=
  stripWith_fix (fun _ h => stripWith_head_false h) (fun _ h => stripWith_getLast_false h)

theorem mem_stripWith {p : Char → Bool} {l : List Char} {c : Char}
    (h : c ∈ pyStripWith p l) : c ∈ l := by
  obtain ⟨v, hv⟩ := stripWith_prefix_decomp p l
  obtain ⟨u, hu⟩ := dropWhile_suffix_decomp (p := p) l
  rw [← hu, ← hv]
  simp [h]

theorem map_fix {f : Char → Char} : ∀ {l : List Char}, (∀ c ∈ l, f c = c) → l.map f = l := by
  intro l
  induction l with
  | nil => intro _; rfl
  | cons a t ih =>
    intro h
    simp only [List.map_cons]
    rw [h a (by simp), ih (fun c hc => h c (List.mem_cons_of_mem _ hc))]

theorem titleGo_map_ws : ∀ (prev : Bool) (l : List Char),
    (titleGo prev l).map isPyWs = l.map isPyWs := by
  intro prev l
  induction l generalizing prev with
  | nil => rfl
  | cons c cs ih =>
    simp only [titleGo, List.map_cons]
    rw [ih]
    congr 1
    by_cases hp : prev
    · simp [hp, isPyWs_lower]
    · simp [hp, isPyWs_upper]

theorem titleGo_idem : ∀ (prev : Bool) (l : List Char),
    titleGo prev (titleGo prev l) = titleGo prev l := by
  intro prev l
  induction l generalizing prev with
  | nil => rfl
  | cons c cs ih =>
    simp only [titleGo]
    have hcased : casedChar (if prev then pyLowerChar c else pyUpperChar c) = casedChar c := by
      by_cases hp : prev
      · simp [hp, casedChar_lower]
      · simp [hp, casedChar_upper]
    rw [hcased]
    congr 1
    · by_cases hp : prev
      · simp [hp, pyLowerChar_idem]
      · simp [hp, pyUpperChar_idem]
    · exact ih (casedChar c)

theorem titleGo_eq_nil_iff (prev : Bool) (l : List Char) :
    titleGo prev l = [] ↔ l = [] := by
  cases l <;> simp [titleGo]

/-! ### Lemmas: tag and artist-name canonicalization -/

theorem toList_asString (l : List Char) : (List.asString l).toList = l := rfl

theorem applyTagRules_eq (t : List Char) :
    applyTagRules t =
      (if hasSubstr "MET GALA".toList t then some "Met Gala"
       else if hasSubstr "METGALA".toList t then some "Met Gala"
       else if hasSubstr "PAREJA".toList t then some "Parejas"
       else if hasSubstr "PAREJAS".toList t then some "Parejas"
       else none) := by
  unfold applyTagRules TAG_RULES
  simp only [List.findSome?_cons, List.findSome?_nil]
  split_ifs <;> simp

theorem mem_pyUpper_fix {l : List Char} {c : Char} (h : c ∈ pyUpper l) :
    pyUpperChar c = c := by
  simp only [pyUpper, List.mem_map] at h
  obtain ⟨d, _, rfl⟩ := h
  exact pyUpperChar_idem d

theorem pyUpper_pyCapitalize_of_fix {T : List Char}
    (hfix : ∀ c ∈ T, pyUpperChar c = c) : pyUpper (pyCapitalize T) = T := by
  cases T with
  | nil => rfl
  | cons c cs =>
    simp only [pyCapitalize, pyUpper, pyLower, List.map_cons, List.map_map]
    have h1 : pyUpperChar (pyUpperChar c) = c := by
      rw [pyUpperChar_idem]
      exact hfix c (by simp)
    have h2 : List.map (pyUpperChar ∘ pyLowerChar) cs = cs := by
      have hcg : ∀ x ∈ cs, (pyUpperChar ∘ pyLowerChar) x = x := by
        intro x hx
        have hxf : pyUpperChar x = x := hfix x (List.mem_cons_of_mem _ hx)
        have h3 := pyUpper_lower_upper x
        rw [hxf] at h3
        simpa [hxf] using h3
      calc List.map (pyUpperChar ∘ pyLowerChar) cs = List.map id cs :=
            List.map_congr_left hcg
        _ = cs := List.map_id cs
    rw [h1, h2]

/-- C10: Tag canonicalization is idempotent: every output of clean_tags is
a fixed point of clean_tags. -/
theorem clean_tags_eq (s : String) :
    clean_tags s =
      match applyTagRules (stripWs (pyUpper s.toList)) with
      | some v => v
      | none => (pyCapitalize (stripWs (pyUpper s.toList))).asString := rfl

theorem stripWs_idem (l : List Char) : stripWs (stripWs l) = stripWs l :=
  stripWith_idem isPyWs l

theorem applyTagRules_cases {t : List Char} {v : String}
    (h : applyTagRules t = some v) : v = "Met Gala" ∨ v = "Parejas" := by
  rw [applyTagRules_eq] at h
  split at h
  · injection h with h; exact Or.inl h.symm
  · split at h
    · injection h with h; exact Or.inl h.symm
    · split at h
      · injection h with h; exact Or.inr h.symm
      · split at h
        · injection h with h; exact Or.inr h.symm
        · exact absurd h (by simp)

/-- C10: Tag canonicalization is idempotent: every output of clean_tags is
a fixed point of clean_tags. -/
theorem c10_clean_tags_idempotent (s : String) :
    clean_tags (clean_tags s) = clean_tags s := by
  cases hsplit : applyTagRules (stripWs (pyUpper s.toList)) with
  | some v =>
    have hcs : clean_tags s = v := by rw [clean_tags_eq, hsplit]
    rw [hcs]
    rcases applyTagRules_cases hsplit with rfl | rfl <;> decide
  | none =>
    have hcs : clean_tags s = (pyCapitalize (stripWs (pyUpper s.toList))).asString := by
      rw [clean_tags_eq, hsplit]
    have hfix : ∀ c ∈ stripWs (pyUpper s.toList), pyUpperChar c = c := by
      intro c hc
      exact mem_pyUpper_fix (mem_stripWith hc)
    rw [hcs, clean_tags_eq, toList_asString, pyUpper_pyCapitalize_of_fix hfix,
      stripWs_idem, hsplit]

theorem titleGo_boundary_ws (prev : Bool) (l : List Char) :
    (titleGo prev l).head?.map isPyWs = l.head?.map isPyWs ∧
    (titleGo prev l).getLast?.map isPyWs = l.getLast?.map isPyWs := by
  constructor
  · rw [← List.head?_map, ← List.head?_map, titleGo_map_ws]
  · rw [← List.getLast?_map, ← List.getLast?_map, titleGo_map_ws]

/-- C9 counterexample: clean_artist_name is not idempotent.  Stripping the
apostrophes before the double quotes lets a double-quoted apostrophe
survive into the canonical form, and a second application removes it. -/
theorem c9_counterexample :
    clean_artist_name "\"'zendaya'\"" = "'Zendaya'" ∧
    clean_artist_name (clean_artist_name "\"'zendaya'\"") = "Zendaya" ∧
    clean_artist_name (clean_artist_name "\"'zendaya'\"") ≠
      clean_artist_name "\"'zendaya'\"" := by
  refine ⟨by decide, by decide, by decide⟩

/-- C9 amended: clean_artist_name is idempotent on every input whose
canonical form neither starts nor ends with a quote character. -/
theorem c9_clean_artist_name_idempotent (x : String)
    (h : noBoundaryQuote (clean_artist_name x) = true) :
    clean_artist_name (clean_artist_name x) = clean_artist_name x := by
  by_cases hc :
      (stripWs (stripQuoteChar '"' (stripQuoteChar '\'' (stripWs x.toList)))).isEmpty
  · have hx : clean_artist_name x = "" := by
      unfold clean_artist_name
      simp only [hc]
      rfl
    rw [hx]
    decide
  · set cleaned := stripWs (stripQuoteChar '"' (stripQuoteChar '\'' (stripWs x.toList))) with hcl
    have hx : clean_artist_name x = (pyTitle cleaned).asString := by
      unfold clean_artist_name
      rw [← hcl]
      simp only [hc]
      rfl
    set t := pyTitle cleaned with ht
    -- boundary characters of t are not whitespace
    have hclean_head : ∀ c, cleaned.head? = some c → isPyWs c = false :=
      fun c hcc => stripWith_head_false hcc
    have hclean_last : ∀ c, cleaned.getLast? = some c → isPyWs c = false :=
      fun c hcc => stripWith_getLast_false hcc
    have hbw := titleGo_boundary_ws false cleaned
    have ht_head_ws : ∀ c, t.head? = some c → isPyWs c = false := by
      intro c hcc
      have h1 : t.head?.map isPyWs = cleaned.head?.map isPyWs := hbw.1
      rw [hcc] at h1
      cases h2 : cleaned.head? with
      | none => rw [h2] at h1; simp at h1
      | some d =>
        rw [h2] at h1
        simp at h1
        rw [h1]
        exact hclean_head d h2
    have ht_last_ws : ∀ c, t.getLast? = some c → isPyWs c = false := by
      intro c hcc
      have h1 : t.getLast?.map isPyWs = cleaned.getLast?.map isPyWs := hbw.2
      rw [hcc] at h1
      cases h2 : cleaned.getLast? with
      | none => rw [h2] at h1; simp at h1
      | some d =>
        rw [h2] at h1
        simp at h1
        rw [h1]
        exact hclean_last d h2
    -- boundary characters of t are not quotes (hypothesis)
    rw [hx] at h
    unfold noBoundaryQuote at h
    rw [toList_asString] at h
    simp only [Bool.and_eq_true] at h
    have ht_head_q : ∀ c, t.head? = some c → (c == '\'') = false ∧ (c == '"') = false := by
      intro c hcc
      have := h.1
      rw [hcc] at this
      simp at this
      simp [this.1, this.2]
    have ht_last_q : ∀ c, t.getLast? = some c → (c == '\'') = false ∧ (c == '"') = false := by
      intro c hcc
      have := h.2
      rw [hcc] at this
      simp at this
      simp [this.1, this.2]
    -- second application leaves t unchanged until the title pass
    have hs1 : stripWs t = t :=
      stripWith_fix ht_head_ws ht_last_ws
    have hs2 : stripQuoteChar '\'' t = t :=
      stripWith_fix (fun c hcc => (ht_head_q c hcc).1) (fun c hcc => (ht_last_q c hcc).1)
    have hs3 : stripQuoteChar '"' t = t :=
      stripWith_fix (fun c hcc => (ht_head_q c hcc).2) (fun c hcc => (ht_last_q c hcc).2)
    have htne : ¬ t.isEmpty := by
      rw [ht]
      unfold pyTitle
      rw [List.isEmpty_iff, titleGo_eq_nil_iff]
      rw [← List.isEmpty_iff]
      simp only [Bool.not_eq_true] at hc ⊢
      exact hc
    rw [hx]
    unfold clean_artist_name
    rw [toList_asString, hs1, hs2, hs3, hs1]
    have hpt : pyTitle t = t := by
      rw [ht]
      exact titleGo_idem false cleaned
    simp only [Bool.not_eq_true] at htne
    simp [htne, hpt]

/-- C9 witness: applying the amended idempotence at a concrete name whose
canonical form is quote-free. -/
theorem c9_witness :
    noBoundaryQuote (clean_artist_name " 'zendaya' ") = true ∧
    clean_artist_name (clean_artist_name " 'zendaya' ") =
      clean_artist_name " 'zendaya' " ∧
    clean_artist_name " 'zendaya' " = "Zendaya" :=
  ⟨by decide, c9_clean_artist_name_idempotent " 'zendaya' " (by decide), by decide⟩

/-- C5 counterexample: a tag matching no rule key is capitalized (first
letter upper, rest lower), not title-cased: clean_tags of a two-word tag
differs from the title-cased form. -/
theorem c5_counterexample :
    clean_tags "red carpet" = "Red carpet" ∧
    (pyTitle "red carpet".toList).asString = "Red Carpet" ∧
    clean_tags "red carpet" ≠ (pyTitle "red carpet".toList).asString := by
  refine ⟨by decide, by decide, by decide⟩

/-- C5 amended: clean_tags maps any string whose uppercased-stripped form
contains a rule key to that rule's value, checking in order MET GALA,
METGALA, PAREJA, PAREJAS (so a string containing both a Met Gala key and a
Pareja key yields Met Gala), and capitalizes (not title-cases) every other
string. -/
theorem c5_clean_tags_table (s : String) :
    (hasSubstr "MET GALA".toList (stripWs (pyUpper s.toList)) = true →
      clean_tags s = "Met Gala") ∧
    (hasSubstr "MET GALA".toList (stripWs (pyUpper s.toList)) = false →
      hasSubstr "METGALA".toList (stripWs (pyUpper s.toList)) = true →
      clean_tags s = "Met Gala") ∧
    (hasSubstr "MET GALA".toList (stripWs (pyUpper s.toList)) = false →
      hasSubstr "METGALA".toList (stripWs (pyUpper s.toList)) = false →
      hasSubstr "PAREJA".toList (stripWs (pyUpper s.toList)) = true →
      clean_tags s = "Parejas") ∧
    (hasSubstr "MET GALA".toList (stripWs (pyUpper s.toList)) = false →
      hasSubstr "METGALA".toList (stripWs (pyUpper s.toList)) = false →
      hasSubstr "PAREJA".toList (stripWs (pyUpper s.toList)) = false →
      hasSubstr "PAREJAS".toList (stripWs (pyUpper s.toList)) = false →
      clean_tags s = (pyCapitalize (stripWs (pyUpper s.toList))).asString) := by
  refine ⟨?_, ?_, ?_, ?_⟩ <;>
    intros <;>
      rw [clean_tags_eq, applyTagRules_eq] <;>
        simp_all

/-- C5 witness: the amended rule table at concrete tags. -/
theorem c5_witness :
    clean_tags "metgala 2025" = "Met Gala" ∧
    clean_tags "fotos de parejas" = "Parejas" :=
  ⟨(c5_clean_tags_table "metgala 2025").2.1 (by decide) (by decide),
   (c5_clean_tags_table "fotos de parejas").2.2.1 (by decide) (by decide) (by decide)⟩

/-- C4 counterexample: the tolerant list parser raises ValueError on an
already-list input with two elements, because the truth test of
pd.isna on a two-element list is ambiguous. -/
theorem c4_counterexample :
    parse_artists (.pyListStr ["Ana Lopez", "Luis Diaz"]) = .error .valueError := by
  decide

/-- C4 amended: parse_artists returns a list and never raises on every
None, NaN, string, non-list scalar, or single-element list input; on a
list whose length is not one, the pd.isna truth test raises ValueError. -/
theorem c4_parse_artists_total_cases :
    (∀ s : String, parse_artists (.pyStr s) =
      .ok (cleanArtistList
        ((pySplitComma (stripWs (removeBrackets s.toList))).map List.asString))) ∧
    parse_artists .pyNone = .ok [] ∧
    parse_artists .pyNaN = .ok [] ∧
    parse_artists .pyOther = .ok [] ∧
    (∀ x : String, parse_artists (.pyListStr [x]) = .ok (cleanArtistList [x])) ∧
    (∀ xs : List String, xs.length ≠ 1 →
      parse_artists (.pyListStr xs) = .error .valueError) := by
  refine ⟨fun s => rfl, rfl, rfl, rfl, fun x => rfl, ?_⟩
  intro xs hxs
  unfold parse_artists pdIsNa
  simp only [hxs, if_false, ite_false]
  rfl

/-- C4 witness: the amended totality cases at concrete inputs. -/
theorem c4_witness :
    parse_artists (.pyStr "['ana lopez', 'bad bunny']") =
      .ok ["Ana Lopez", "Bad Bunny"] ∧
    (["a", "b", "c"] : List String).length ≠ 1 ∧
    parse_artists (.pyListStr ["a", "b", "c"]) = .error .valueError := by
  refine ⟨?_, by decide, c4_parse_artists_total_cases.2.2.2.2.2 ["a", "b", "c"] (by decide)⟩
  rw [c4_parse_artists_total_cases.1 "['ana lopez', 'bad bunny']"]
  decide

/-- C1: evidence for the enricher divergence.  On a non-success response
the stage raises AttributeError (the error print reads status_code on the
parsed JSON dict) instead of logging and appending; on all-success input
the output does hold one response per article in request order. -/
theorem c1_nonsuccess_aborts :
    download_sentiment (fun _ => ⟨500, some ⟨none⟩⟩) [⟨"hola"⟩] =
      .error .attributeError ∧
    download_sentiment (fun _ => ⟨200, some ⟨some "positive"⟩⟩)
      [⟨"hola"⟩, ⟨"adios"⟩] =
      .ok (some ([⟨some "positive"⟩, ⟨some "positive"⟩], [("positive", 2)])) := by
  refine ⟨by decide, by decide⟩

/-- C3 counterexample: a string matching the date pattern with a
recognized month but a year outside the pandas Timestamp range makes
pd.to_datetime raise instead of yielding the date or the null date. -/
theorem c3_counterexample :
    matchFecha (stripWs (pyLower "15 de marzo de 1400".toList)) =
      some ("15".toList, "marzo".toList, "1400".toList) ∧
    meses.lookup "marzo" = some "03" ∧
    parse_fecha_es (.pdStr "15 de marzo de 1400") = .error .valueError := by
  refine ⟨by decide, by decide, by decide⟩

theorem parse_fecha_es_str (s : String) :
    parse_fecha_es (.pdStr s) =
      match matchFecha (stripWs (pyLower s.toList)) with
      | some (ds, ms, ys) =>
        match meses.lookup ms.asString with
        | some mm =>
          (toDatetimeYMD (natOfDigits ys) (natOfDigits mm.toList) (natOfDigits ds)).map some
        | none => .ok none
      | none => .ok none := rfl

/-- C3 amended: the normalizer maps every string matching the
day / month-name / year pattern with a recognized month and naming a
representable calendar date to that date; on a matching string with a
recognized month naming no representable date it raises; every
non-matching or unrecognized-month input yields the null date without
raising; null (and any non-string) input yields null. -/
theorem c3_parse_fecha_cases :
    (∀ (s : String) (ds ms ys : List Char) (mm : String),
      matchFecha (stripWs (pyLower s.toList)) = some (ds, ms, ys) →
      meses.lookup ms.asString = some mm →
      pdValidYMD (natOfDigits ys) (natOfDigits mm.toList) (natOfDigits ds) = true →
      parse_fecha_es (.pdStr s) =
        .ok (some ⟨natOfDigits ys, natOfDigits mm.toList, natOfDigits ds⟩)) ∧
    (∀ (s : String) (ds ms ys : List Char) (mm : String),
      matchFecha (stripWs (pyLower s.toList)) = some (ds, ms, ys) →
      meses.lookup ms.asString = some mm →
      pdValidYMD (natOfDigits ys) (natOfDigits mm.toList) (natOfDigits ds) = false →
      parse_fecha_es (.pdStr s) = .error .valueError) ∧
    (∀ s : String, matchFecha (stripWs (pyLower s.toList)) = none →
      parse_fecha_es (.pdStr s) = .ok none) ∧
    (∀ (s : String) (ds ms ys : List Char),
      matchFecha (stripWs (pyLower s.toList)) = some (ds, ms, ys) →
      meses.lookup ms.asString = none →
      parse_fecha_es (.pdStr s) = .ok none) ∧
    parse_fecha_es .pdNaT = .ok none ∧
    parse_fecha_es .pdOther = .ok none := by
  refine ⟨?_, ?_, ?_, ?_, rfl, rfl⟩
  · intro s ds ms ys mm hm hl hv
    rw [parse_fecha_es_str, hm]
    dsimp only
    rw [hl]
    dsimp only
    unfold toDatetimeYMD
    simp only [String.toList] at hv
    simp [hv]
    rfl
  · intro s ds ms ys mm hm hl hv
    rw [parse_fecha_es_str, hm]
    dsimp only
    rw [hl]
    dsimp only
    unfold toDatetimeYMD
    simp only [String.toList] at hv
    simp [hv]
    rfl
  · intro s hm
    rw [parse_fecha_es_str, hm]
  · intro s ds ms ys hm hl
    rw [parse_fecha_es_str, hm]
    dsimp only
    rw [hl]

/-- C3 witness: the amended normalizer cases at the spec's example
inputs. -/
theorem c3_witness :
    parse_fecha_es (.pdStr "15 de marzo de 2024") = .ok (some ⟨2024, 3, 15⟩) ∧
    parse_fecha_es (.pdStr "hello") = .ok none :=
  ⟨c3_parse_fecha_cases.1 "15 de marzo de 2024" "15".toList "marzo".toList
      "2024".toList "03" (by decide) (by decide) (by decide),
   c3_parse_fecha_cases.2.2.1 "hello" (by decide)⟩

/-- C8: get_trends yields the empty frame on an empty keyword list, a span
below the 7-day minimum, or an upstream failure; it consults the upstream
service only through the first five keywords; otherwise it returns the
fetched frame without its isPartial column. -/
theorem c8_get_trends_guards :
    (∀ (fetch : List String → Except String TrendsDF) (s e : Int),
      get_trends fetch [] s e = []) ∧
    (∀ (fetch : List String → Except String TrendsDF) (kws : List String) (s e : Int),
      e - s < 7 → get_trends fetch kws s e = []) ∧
    (∀ (fetch : List String → Except String TrendsDF) (kws : List String)
        (s e : Int) (err : String),
      fetch (kws.take 5) = .error err → get_trends fetch kws s e = []) ∧
    (∀ (fetch : List String → Except String TrendsDF) (kws : List String)
        (s e : Int) (df : TrendsDF),
      kws ≠ [] → 7 ≤ e - s → fetch (kws.take 5) = .ok df →
      get_trends fetch kws s e = dropPartialColumn df) ∧
    (∀ kws : List String, (kws.take 5).length ≤ 5) ∧
    (∀ (f g : List String → Except String TrendsDF) (kws : List String) (s e : Int),
      f (kws.take 5) = g (kws.take 5) → get_trends f kws s e = get_trends g kws s e) := by
  refine ⟨?_, ?_, ?_, ?_, ?_, ?_⟩
  · intro fetch s e
    simp [get_trends]
  · intro fetch kws s e h
    unfold get_trends MIN_TRENDS_DAYS
    simp [h]
  · intro fetch kws s e err h
    unfold get_trends
    rw [h]
    simp
  · intro fetch kws s e df hk hs h
    unfold get_trends MIN_TRENDS_DAYS MOCK_TRENDS
    rw [h]
    simp [hk, not_lt.mpr hs]
  · intro kws
    simp [List.length_take]
  · intro f g kws s e h
    unfold get_trends
    rw [h]

/-- C8 witness: the guards at concrete calls. -/
theorem c8_witness :
    get_trends (fun _ => .ok [("Zendaya", [3, 4])]) [] 0 30 = [] ∧
    get_trends (fun _ => .ok [("Zendaya", [3, 4])]) ["Zendaya"] 0 5 = [] ∧
    get_trends (fun _ => .error "rate limited") ["Zendaya"] 0 30 = [] ∧
    get_trends (fun _ => .ok [("Zendaya", [3, 4]), ("isPartial", [0, 1])])
      ["Zendaya"] 0 30 = [("Zendaya", [3, 4])] :=
  ⟨c8_get_trends_guards.1 _ 0 30,
   c8_get_trends_guards.2.1 _ ["Zendaya"] 0 5 (by decide),
   c8_get_trends_guards.2.2.1 _ ["Zendaya"] 0 30 "rate limited" (by decide),
   by
    rw [c8_get_trends_guards.2.2.2.1 _ ["Zendaya"] 0 30
      [("Zendaya", [3, 4]), ("isPartial", [0, 1])] (by decide) (by decide) (by decide)]
    decide⟩

/-! ### Lemmas: exception-propagating maps -/

theorem mapE_ok_forall2 {f : α → Except PyErr β} :
    ∀ {l : List α} {l' : List β}, mapE f l = .ok l' →
      List.Forall₂ (fun a b => f a = .ok b) l l' := by
  intro l
  induction l with
  | nil =>
    intro l' h
    unfold mapE at h
    injection h with h
    subst h
    exact List.Forall₂.nil
  | cons a t ih =>
    intro l' h
    unfold mapE at h
    cases hf : f a with
    | error e => rw [hf] at h; simp at h
    | ok b =>
      rw [hf] at h
      cases ht : mapE f t with
      | error e => rw [ht] at h; simp [Except.map] at h
      | ok bs =>
        rw [ht] at h
        simp [Except.map] at h
        subst h
        exact List.Forall₂.cons hf (ih ht)

theorem mapE_ok_of_forall {f : α → Except PyErr β} :
    ∀ {l : List α}, (∀ a ∈ l, ∃ b, f a = .ok b) →
      ∃ l', mapE f l = .ok l' := by
  intro l
  induction l with
  | nil => intro _; exact ⟨[], rfl⟩
  | cons a t ih =>
    intro h
    obtain ⟨b, hb⟩ := h a (by simp)
    obtain ⟨bs, hbs⟩ := ih (fun x hx => h x (List.mem_cons_of_mem _ hx))
    refine ⟨b :: bs, ?_⟩
    unfold mapE
    rw [hb, hbs]
    rfl

theorem forall2_length {R : α → β → Prop} :
    ∀ {l : List α} {l' : List β}, List.Forall₂ R l l' → l'.length = l.length := by
  intro l l' h
  induction h with
  | nil => rfl
  | cons _ _ ih => simp [ih]

theorem forall2_mem_right {R : α → β → Prop} :
    ∀ {l : List α} {l' : List β}, List.Forall₂ R l l' →
      ∀ b ∈ l', ∃ a ∈ l, R a b := by
  intro l l' h
  induction h with
  | nil => intro b hb; simp at hb
  | cons hr _ ih =>
    intro b hb
    rcases List.mem_cons.mp hb with rfl | hb
    · exact ⟨_, by simp, hr⟩
    · obtain ⟨a, ha, har⟩ := ih b hb
      exact ⟨a, List.mem_cons_of_mem _ ha, har⟩

theorem forall2_mem_left {R : α → β → Prop} :
    ∀ {l : List α} {l' : List β}, List.Forall₂ R l l' →
      ∀ a ∈ l, ∃ b ∈ l', R a b := by
  intro l l' h
  induction h with
  | nil => intro a ha; simp at ha
  | cons hr _ ih =>
    intro a ha
    rcases List.mem_cons.mp ha with rfl | ha
    · exact ⟨_, by simp, hr⟩
    · obtain ⟨b, hb, hbr⟩ := ih a ha
      exact ⟨b, List.mem_cons_of_mem _ hb, hbr⟩

/-! ### C7: the dataset assembler -/

/-- C7: the assembler drops exactly the records whose body is absent or
the sentinel: every output row stems from an input row with a present,
non-sentinel body and carries the coerced artist list and link; and every
input row with a present, non-sentinel body yields such an output row. -/
theorem c7_prepare_dataframe (rows : List RawArticle) (out : List PreparedArticle)
    (h : prepare_dataframe rows = .ok out) :
    (∀ q ∈ out, q.cuerpo_articulo ≠ "N/A" ∧
      ∃ r ∈ rows, r.cuerpo_articulo = some q.cuerpo_articulo ∧
        q.titulo = r.titulo ∧
        q.artistas_en_articulo = listOrEmpty r.artistas_en_articulo ∧
        q.link = r.link.getD "") ∧
    (∀ r ∈ rows, ∀ s : String, r.cuerpo_articulo = some s → s ≠ "N/A" →
      ∃ q ∈ out, q.titulo = r.titulo ∧ q.cuerpo_articulo = s ∧
        q.artistas_en_articulo = listOrEmpty r.artistas_en_articulo ∧
        q.link = r.link.getD "") := by
  unfold prepare_dataframe at h
  cases hm : mapE (fun r => (parse_fecha_es (.pdStr r.fecha)).map (fun d => (r, d))) rows with
  | error e => rw [hm] at h; simp [Except.map] at h
  | ok withF =>
    rw [hm] at h
    simp [Except.map] at h
    subst h
    have hf2 := mapE_ok_forall2 hm
    have hfst : ∀ rd ∈ withF, rd.1 ∈ rows := by
      intro rd hrd
      obtain ⟨r, hr, hok⟩ := forall2_mem_right hf2 rd hrd
      cases hp : parse_fecha_es (.pdStr r.fecha) with
      | error e => rw [hp] at hok; simp [Except.map] at hok
      | ok d =>
        rw [hp] at hok
        simp [Except.map] at hok
        rw [← hok]
        exact hr
    constructor
    · intro q hq
      simp only [List.mem_map, List.mem_filter] at hq
      obtain ⟨rd, ⟨hrd, hkeep⟩, rfl⟩ := hq
      have hr : rd.1 ∈ rows := hfst rd hrd
      unfold keepBody at hkeep
      cases hb : rd.1.cuerpo_articulo with
      | none => rw [hb] at hkeep; simp at hkeep
      | some s =>
        rw [hb] at hkeep
        simp at hkeep
        refine ⟨by simpa [hb] using hkeep, rd.1, hr, by simp [hb], rfl, rfl, rfl⟩
    · intro r hr s hs hsna
      obtain ⟨rd, hrd, hok⟩ := forall2_mem_left hf2 r hr
      cases hp : parse_fecha_es (.pdStr r.fecha) with
      | error e => rw [hp] at hok; simp [Except.map] at hok
      | ok d =>
        rw [hp] at hok
        simp [Except.map] at hok
        have hkeep : keepBody rd.1 = true := by
          unfold keepBody
          rw [← hok]
          rw [hs]
          simpa using hsna
        refine ⟨_, List.mem_map_of_mem _ (List.mem_filter.mpr ⟨hrd, hkeep⟩), ?_⟩
        rw [← hok]
        simp [hs]

/-- C7 witness: the assembler at a concrete pair of records, one with the
sentinel body and one with a real body. -/
theorem c7_witness :
    prepare_dataframe
      [⟨"t1", "15 de marzo de 2024", some "l1", some "N/A", .pyStr "x", "tag", "au"⟩,
       ⟨"t2", "hello", none, some "Hello world", .pyOther, "tag", "au"⟩] =
      .ok [⟨"t2", none, "", "Hello world", [], "tag", "au"⟩] ∧
    (∀ q ∈ [(⟨"t2", none, "", "Hello world", [], "tag", "au"⟩ : PreparedArticle)],
      q.cuerpo_articulo ≠ "N/A" ∧
      ∃ r ∈ [(⟨"t1", "15 de marzo de 2024", some "l1", some "N/A", .pyStr "x", "tag", "au"⟩ : RawArticle),
             ⟨"t2", "hello", none, some "Hello world", .pyOther, "tag", "au"⟩],
        r.cuerpo_articulo = some q.cuerpo_articulo ∧
        q.titulo = r.titulo ∧
        q.artistas_en_articulo = listOrEmpty r.artistas_en_articulo ∧
        q.link = r.link.getD "") :=
  ⟨by decide,
   (c7_prepare_dataframe _ _ (by decide)).1⟩

/-! ### C6: collector deduplication -/

theorem scrapeArticles_spec (elems : List (Option SummaryElem)) :
    ∀ seen : List (String × String),
      ((scrapeArticles elems seen).1.map recordKey).Nodup ∧
      (∀ k ∈ (scrapeArticles elems seen).1.map recordKey, k ∉ seen) ∧
      (∀ k ∈ (scrapeArticles elems seen).1.map recordKey,
        k ∈ (scrapeArticles elems seen).2) ∧
      (∀ k ∈ seen, k ∈ (scrapeArticles elems seen).2) := by
  induction elems with
  | nil =>
    intro seen
    refine ⟨by simp [scrapeArticles], by simp [scrapeArticles], by simp [scrapeArticles], ?_⟩
    intro k hk
    simpa [scrapeArticles] using hk
  | cons oe rest ih =>
    intro seen
    cases oe with
    | none => simpa [scrapeArticles] using ih seen
    | some e =>
      by_cases hseen : elemKey e ∈ seen
      · simpa [scrapeArticles, hseen] using ih seen
      · have ihr := ih (elemKey e :: seen)
        have hkey : recordKey (mkRecord e) = elemKey e := rfl
        constructor
        · simp only [scrapeArticles, if_neg hseen, List.map_cons, List.nodup_cons]
          refine ⟨?_, ihr.1⟩
          intro hmem
          rw [hkey] at hmem
          exact (ihr.2.1 _ hmem) (by simp)
        · constructor
          · simp only [scrapeArticles, if_neg hseen, List.map_cons]
            intro k hk
            rcases List.mem_cons.mp hk with rfl | hk
            · rw [hkey]; exact hseen
            · intro hks
              exact (ihr.2.1 k hk) (List.mem_cons_of_mem _ hks)
          · constructor
            · simp only [scrapeArticles, if_neg hseen, List.map_cons]
              intro k hk
              rcases List.mem_cons.mp hk with rfl | hk
              · rw [hkey]
                exact ihr.2.2.2 (elemKey e) (by simp)
              · exact ihr.2.2.1 k hk
            · simp only [scrapeArticles, if_neg hseen]
              intro k hk
              exact ihr.2.2.2 k (List.mem_cons_of_mem _ hk)

theorem scrapePages_spec (pages : List (Option (List (Option SummaryElem)))) :
    ∀ seen : List (String × String),
      ((scrapePages pages seen).map recordKey).Nodup ∧
      (∀ k ∈ (scrapePages pages seen).map recordKey, k ∉ seen) := by
  induction pages with
  | nil => intro seen; simp [scrapePages]
  | cons op rest ih =>
    intro seen
    cases op with
    | none => simp [scrapePages]
    | some arts =>
      have ha := scrapeArticles_spec arts seen
      have ihr := ih (scrapeArticles arts seen).2
      constructor
      · simp only [scrapePages, List.map_append]
        rw [List.nodup_append]
        refine ⟨ha.1, ihr.1, ?_⟩
        intro k hk1 hk2
        exact (ihr.2 k hk2) (ha.2.2.1 k hk1)
      · simp only [scrapePages, List.map_append]
        intro k hk
        rcases List.mem_append.mp hk with hk | hk
        · exact ha.2.1 k hk
        · intro hks
          exact (ihr.2 k hk) (ha.2.2.2 k hks)

/-- C6: across a collection run, the emitted records carry pairwise
distinct (title, raw-date-text) keys: the dedup set admits at most one
record per key. -/
theorem c6_scrape_dedup (pages : List (Option (List (Option SummaryElem)))) :
    ((scrape_vogue_celebrities pages).map recordKey).Nodup :=
  (scrapePages_spec pages []).1

/-! ### C2: the positional sentiment join -/

/-- C2: with as many sentiment entries as dataset rows, load_data attaches
to row i exactly entry i's label and confidence, defaulting an absent
label to unknown and an absent confidence to zero. -/
theorem c2_positional_join (rows : List CsvRow) (sent : List SentEntry)
    (hN : sent.length = rows.length)
    (hok : ∀ r ∈ rows, ∃ l, parse_artists r.artistas_en_articulo = .ok l) :
    ∃ out, load_data rows sent = .ok out ∧ out.length = rows.length ∧
      ∀ i e, sent.get? i = some e →
        ∃ a, out.get? i = some a ∧ a.art.isSome = true ∧
          (∀ lab, e.sentiment = some lab → a.sentiment = lab) ∧
          (e.sentiment = none → a.sentiment = "unknown") ∧
          (∀ q, e.score = some q → a.confidence = q) ∧
          (e.score = none → a.confidence = 0) := by
  have hok' : ∀ r ∈ rows, ∃ b,
      (parse_artists r.artistas_en_articulo).map (fun arts =>
        ({ titulo := r.titulo, fecha := parseIsoDate r.fecha, link := r.link,
           cuerpo_articulo := r.cuerpo_articulo, artistas_en_articulo := arts,
           tag := clean_tags r.tag } : CleanRow)) = .ok b := by
    intro r hr
    obtain ⟨l, hl⟩ := hok r hr
    exact ⟨_, by rw [hl]; rfl⟩
  obtain ⟨cleaned, hcl⟩ := mapE_ok_of_forall hok'
  have hlen : cleaned.length = rows.length := forall2_length (mapE_ok_forall2 hcl)
  have hmax : max cleaned.length sent.length = rows.length := by
    rw [hlen, hN]
    exact Nat.max_self _
  refine ⟨(List.range (max cleaned.length sent.length)).map (fun i =>
      { art := cleaned.get? i
        sentiment := ((sent.get? i).bind SentEntry.sentiment).getD "unknown"
        confidence := ((sent.get? i).bind SentEntry.score).getD 0 }), ?_, ?_, ?_⟩
  · unfold load_data
    rw [hcl]
    rfl
  · simp [hmax]
  · intro i e he
    have he2 : sent[i]? = some e := by
      rw [← List.get?_eq_getElem?]
      exact he
    have hi : i < sent.length := by
      by_contra hge
      rw [List.get?_eq_none.mpr (Nat.le_of_not_lt hge)] at he
      exact Option.noConfusion he
    have hin : i < rows.length := hN ▸ hi
    have hr : (List.range (max cleaned.length sent.length)).get? i = some i := by
      rw [List.get?_range]
      rw [hmax]
      exact hin
    refine ⟨{ art := cleaned.get? i
              sentiment := ((sent.get? i).bind SentEntry.sentiment).getD "unknown"
              confidence := ((sent.get? i).bind SentEntry.score).getD 0 },
      ?_, ?_, ?_, ?_, ?_, ?_⟩
    · rw [List.get?_map, hr]
      rfl
    · have hcn : cleaned.get? i ≠ none := by
        rw [Ne, List.get?_eq_none]
        omega
      cases hc : cleaned.get? i with
      | none => exact absurd hc hcn
      | some c => simp [hc]
    · intro lab hlab
      simp [he2, hlab]
    · intro hnone
      simp [he2, hnone]
    · intro q hq
      simp [he2, hq]
    · intro hnone
      simp [he2, hnone]

/-- C2 witness: the join at one concrete row and entry. -/
theorem c2_witness :
    (∀ r ∈ [(⟨"t", "2025-03-15", "l", "b", .pyStr "['zendaya']", "moda", "au"⟩ : CsvRow)],
      ∃ l, parse_artists r.artistas_en_articulo = .ok l) ∧
    ∃ out,
      load_data [⟨"t", "2025-03-15", "l", "b", .pyStr "['zendaya']", "moda", "au"⟩]
        [⟨some "positive", some (9 / 10)⟩] = .ok out ∧
      out.length = 1 ∧
      ∀ i e, ([(⟨some "positive", some (9 / 10)⟩ : SentEntry)]).get? i = some e →
        ∃ a, out.get? i = some a ∧ a.art.isSome = true ∧
          (∀ lab, e.sentiment = some lab → a.sentiment = lab) ∧
          (e.sentiment = none → a.sentiment = "unknown") ∧
          (∀ q, e.score = some q → a.confidence = q) ∧
          (e.score = none → a.confidence = 0) := by
  constructor
  · intro r hr
    simp only [List.mem_singleton] at hr
    subst hr
    exact ⟨["Zendaya"], by decide⟩
  · exact c2_positional_join _ _ (by decide)
      (by
        intro r hr
        simp only [List.mem_singleton] at hr
        subst hr
        exact ⟨["Zendaya"], by decide⟩)

end VogueTrends
